import Mathlib

/-!
Verification development for protoc-gen-go-dbtypes.

The repository is a protoc plugin that, for each selected protobuf message,
emits a wrapper type implementing database Scan/Value behaviour (binary
marshal/unmarshal), plus a single shared generic wrapper per output package.

`src/` holds the driver (`cmd/protoc-gen-go-dbtypes/main.go`) and the test
suite of the generated code (`gen/go/test/v1/test_dbtypes_test.go`).  The
Selection Filter, the Emission Engine (`generateFile`) and the generated
runtime wrapper code are not present under `src/`; those parts are modelled
from the specification, as marked on each definition.

Strings are modelled as lists of characters, byte sequences as lists of
naturals.
-/

namespace DbTypes

/-! ### Configuration building (from main.go) -/

/-- Characters treated as whitespace by Go `strings.TrimSpace`
(ASCII whitespace; the Unicode cases are irrelevant to the inputs here). -/
def goSpace (c : Char) : Bool :=
  c = ' ' || c = '\t' || c = '\n' || c = Char.ofNat 11 || c = Char.ofNat 12 || c = '\r'

/-- Remove the trailing run of whitespace from a string
(the right half of Go `strings.TrimSpace`). -/
def trimRightSpace : List Char → List Char
  | [] => []
  | c :: rest =>
    let r := trimRightSpace rest
    if r = [] ∧ goSpace c = true then [] else c :: r

/-- Go `strings.TrimSpace`: remove the leading and trailing runs of
whitespace. -/
def trimSpace (s : List Char) : List Char :=
  trimRightSpace (s.dropWhile goSpace)

/-- Go `strings.Split(s, ",")`. -/
def splitComma : List Char → List (List Char)
  | [] => [[]]
  | c :: rest =>
    if c = ',' then [] :: splitComma rest
    else
      match splitComma rest with
      | [] => [[c]]
      | g :: gs => (c :: g) :: gs

/-- Generator configuration (main.go): the set of excluded identifiers and
the optional single-package restriction (empty string means unrestricted). -/
structure GeneratorConfig where
  excludedTypes : List (List Char)
  onlyPackage : List Char

/-- From main.go: parse the raw comma-separated `exclude` option into the
exclusion set, trimming surrounding whitespace from each entry; an empty raw
string yields an empty set. -/
def buildExcluded (raw : List Char) : List (List Char) :=
  if raw = [] then [] else (splitComma raw).map trimSpace

/-- From main.go: build the `GeneratorConfig` from the raw `exclude` and
`package` option strings. -/
def buildConfig (rawExclude rawPackage : List Char) : GeneratorConfig :=
  ⟨buildExcluded rawExclude, trimSpace rawPackage⟩

/-! ### Selection Filter and Emission Engine -/

/-- A message schema node: short local name, fully qualified name, the
synthetic map-entry flag, and the owning package identifier. -/
structure SchemaNode where
  shortName : List Char
  fullName : List Char
  isMapEntry : Bool
  pkg : List Char
deriving DecidableEq

/-- Modelled from the spec: the Selection Filter `shouldGenerate` is not
under `src/` (only its caller `main.go` is).  Per the spec it returns false
for synthetic map-entry nodes, false when the single-package restriction is
set and differs from the node's package, false when the node's short or
fully qualified name is in the exclusion set (exact string membership), and
true otherwise. -/
def shouldGenerate (node : SchemaNode) (cfg : GeneratorConfig) : Bool :=
  if node.isMapEntry then false
  else if cfg.onlyPackage ≠ [] ∧ node.pkg ≠ cfg.onlyPackage then false
  else if node.shortName ∈ cfg.excludedTypes ∨ node.fullName ∈ cfg.excludedTypes then false
  else true

/-- A generated code block: either the once-per-package shared generic
wrapper definition, or the concrete wrapper block of one message. -/
inductive Block where
  | sharedWrapper (pkg : List Char)
  | messageWrapper (name : List Char)
deriving DecidableEq

/-- An input schema file: its generate flag, its output package identifier,
and its message nodes in traversal order (nested messages flattened in). -/
structure SchemaFile where
  generate : Bool
  outPkg : List Char
  messages : List SchemaNode

/-- Modelled from the spec: the per-file message loop of the Emission Engine
(`generateFile` is not under `src/`).  For each accepted message, if the
Package Emission State does not yet mark the file's output package, the
shared generic wrapper block is emitted first and the package is marked;
then the message's concrete wrapper block is emitted.  Rejected messages
emit nothing. -/
def genMsgs (cfg : GeneratorConfig) (pkg : List Char) :
    List SchemaNode → List Block → List (List Char) → List Block × List (List Char)
  | [], bs, st => (bs, st)
  | n :: rest, bs, st =>
    if shouldGenerate n cfg then
      if pkg ∈ st then
        genMsgs cfg pkg rest (bs ++ [Block.messageWrapper n.shortName]) st
      else
        genMsgs cfg pkg rest
          (bs ++ [Block.sharedWrapper pkg, Block.messageWrapper n.shortName]) (pkg :: st)
    else genMsgs cfg pkg rest bs st

/-- Modelled from the spec: one file's generation pass, threading the
Package Emission State. -/
def generateFile (cfg : GeneratorConfig) (f : SchemaFile) (st : List (List Char)) :
    List Block × List (List Char) :=
  genMsgs cfg f.outPkg f.messages [] st

/-- Modelled from the spec and main.go: process files in order, skipping
files without the generate flag, and keep an output unit only when the file
produced at least one block. -/
def runFiles (cfg : GeneratorConfig) :
    List SchemaFile → List (List Block) → List (List Char) →
      List (List Block) × List (List Char)
  | [], units, st => (units, st)
  | f :: rest, units, st =>
    if f.generate then
      let r := generateFile cfg f st
      runFiles cfg rest (if r.1 = [] then units else units ++ [r.1]) r.2
    else runFiles cfg rest units st

/-- A whole generation run: the Package Emission State starts empty and the
resulting output units are returned. -/
def runGenerator (cfg : GeneratorConfig) (files : List SchemaFile) : List (List Block) :=
  (runFiles cfg files [] []).1

/-- Number of occurrences of the shared wrapper block of package `p` in a
block list. -/
def countShared (p : List Char) (bs : List Block) : Nat :=
  (bs.filter (fun b => b = Block.sharedWrapper p)).length

/-- Number of occurrences of the shared wrapper block of package `p` across
all output units combined. -/
def sharedCount (p : List Char) (units : List (List Block)) : Nat :=
  countShared p units.flatten

/-! ### Generated runtime wrapper (modelled from the spec) -/

/-- A database source value handed to `Scan` (Go `driver.Value` / `any`):
a binary sequence, a text sequence (a Go string carries exactly its bytes),
null, or one of the other driver kinds (numeric, boolean, time). -/
inductive Src where
  | bytes (b : List Nat)
  | str (b : List Nat)
  | null
  | int64 (n : Int)
  | float64
  | boolean (b : Bool)
  | timeVal
deriving DecidableEq

/-- Whether a source kind is accepted by the generated scan operation. -/
def Src.supported : Src → Bool
  | .bytes _ => true
  | .str _ => true
  | .null => true
  | _ => false

/-- Error raised by the generated scan operation: either the
unsupported-source-type error or a propagated unmarshal failure. -/
inductive ScanError where
  | unsupportedType
  | unmarshalFailure (msg : String)
deriving DecidableEq

/-- Modelled from the spec: the shared generic container `ProtoValue[T]`
emitted once per package (the generated code is not under `src/`).  It holds
zero or one message value. -/
structure ProtoValue (M : Type) where
  message : Option M
deriving DecidableEq

/-- Modelled from the spec: a concrete generated wrapper type, embedding the
shared generic container; the embedded container itself may be absent, as in
a freshly allocated (zero-value) wrapper. -/
structure MsgValue (M : Type) where
  pv : Option (ProtoValue M)
deriving DecidableEq

/-- Modelled from the spec: the generated construction operation
(`NewXxxValue`): an absent message argument is replaced by a freshly
constructed empty (default) message, then the wrapper embeds a container
holding that message. -/
def MsgValue.construct {M : Type} (dflt : M) (m : Option M) : MsgValue M :=
  ⟨some ⟨some (m.getD dflt)⟩⟩

/-- Modelled from the spec: the generated scan operation.  On a binary
sequence, unmarshal it into the held message; on a text sequence, reinterpret
its bytes identically and unmarshal; on null, succeed leaving the wrapper
unchanged; on any other source kind, fail with the unsupported-source-type
error.  Unmarshal failures are propagated. -/
def MsgValue.scan {M : Type} (dec : List Nat → Except String M)
    (w : MsgValue M) : Src → Except ScanError (MsgValue M)
  | .bytes b =>
    match dec b with
    | .ok m => .ok ⟨some ⟨some m⟩⟩
    | .error e => .error (.unmarshalFailure e)
  | .str b =>
    match dec b with
    | .ok m => .ok ⟨some ⟨some m⟩⟩
    | .error e => .error (.unmarshalFailure e)
  | .null => .ok w
  | _ => .error .unsupportedType

/-- Modelled from the spec: the generated value operation.  If the embedded
container is absent (zero-value wrapper), return null with no error;
otherwise marshal the held message, an absent held message being treated as
the empty (default) message. -/
def MsgValue.value {M : Type} (enc : M → List Nat) (dflt : M) :
    MsgValue M → Except String (Option (List Nat))
  | ⟨none⟩ => .ok none
  | ⟨some p⟩ => .ok (some (enc (p.message.getD dflt)))

/-- Modelled from the spec: the generated unwrap operation, returning the
held message as-is, absent-as-absent. -/
def MsgValue.unwrap {M : Type} : MsgValue M → Option M
  | ⟨none⟩ => none
  | ⟨some p⟩ => p.message

/-! ### Concrete message and binary codec

The binary (un)marshal collaborator is the external protobuf library; it is
modelled here, faithful to the proto3 wire format, for the concrete test
message `ToolSetSpec` (repeated string `tool_ids` = field 1, string `name` =
field 2, bool `enabled` = field 3). -/

/-- The concrete test message, `ToolSetSpec`: field values are byte-level
(strings as byte lists). -/
structure ToolSetSpec where
  toolIds : List (List Nat)
  name : List Nat
  enabled : Bool
deriving DecidableEq

/-- The empty (all-default) `ToolSetSpec`. -/
def ToolSetSpec.default : ToolSetSpec := ⟨[], [], false⟩

/-- Base-128 varint encoding, fuel-bounded (any fuel above the value
suffices; `varintEncode` supplies it). -/
def varintEncodeF : Nat → Nat → List Nat
  | 0, n => [n % 128]
  | fuel + 1, n => if n < 128 then [n] else (n % 128 + 128) :: varintEncodeF fuel (n / 128)

/-- Base-128 varint encoding of a natural number. -/
def varintEncode (n : Nat) : List Nat := varintEncodeF (n + 1) n

/-- Base-128 varint decoding: the decoded value and the remaining bytes. -/
def varintDecode : List Nat → Option (Nat × List Nat)
  | [] => none
  | b :: rest =>
    if b < 128 then some (b, rest)
    else
      match varintDecode rest with
      | some (n, r) => some (b - 128 + 128 * n, r)
      | none => none

/-- Read exactly `n` bytes from the front of a byte list. -/
def readN (n : Nat) (l : List Nat) : Option (List Nat × List Nat) :=
  if n ≤ l.length then some (l.take n, l.drop n) else none

/-- Length-delimited encoding: varint length followed by the bytes. -/
def encLD (s : List Nat) : List Nat := varintEncode s.length ++ s

/-- Length-delimited decoding. -/
def decLD (l : List Nat) : Option (List Nat × List Nat) :=
  match varintDecode l with
  | some (n, r) => readN n r
  | none => none

/-- Wire encoding of the repeated `tool_ids` field: one tag-10
length-delimited record per element. -/
def encodeToolIds : List (List Nat) → List Nat
  | [] => []
  | s :: rest => 10 :: (encLD s ++ encodeToolIds rest)

/-- Proto3 wire encoding of a `ToolSetSpec` (default-valued singular fields
are omitted, as the protobuf encoder does). -/
def marshalToolSetSpec (m : ToolSetSpec) : List Nat :=
  encodeToolIds m.toolIds
    ++ (if m.name = [] then [] else 18 :: encLD m.name)
    ++ (if m.enabled then [24, 1] else [])

/-- Parse the leading run of tag-10 `tool_ids` records, fuel-bounded (fuel =
input length suffices since every record consumes at least its tag byte). -/
def parseToolIdsF : Nat → List Nat → Option (List (List Nat) × List Nat)
  | _, [] => some ([], [])
  | 0, _ :: _ => none
  | fuel + 1, b :: rest =>
    if b = 10 then
      match decLD rest with
      | some (s, r) =>
        match parseToolIdsF fuel r with
        | some (ids, r2) => some (s :: ids, r2)
        | none => none
      | none => none
    else some ([], b :: rest)

/-- Parse the leading run of `tool_ids` records. -/
def parseToolIds (l : List Nat) : Option (List (List Nat) × List Nat) :=
  parseToolIdsF l.length l

/-- Parse an optional tag-18 `name` record. -/
def parseName : List Nat → Option (List Nat × List Nat)
  | [] => some ([], [])
  | b :: rest => if b = 18 then decLD rest else some ([], b :: rest)

/-- Parse an optional tag-24 `enabled` record. -/
def parseEnabled : List Nat → Option (Bool × List Nat)
  | [] => some (false, [])
  | b :: rest =>
    if b = 24 then
      match varintDecode rest with
      | some (n, r) => some (decide (n ≠ 0), r)
      | none => none
    else some (false, b :: rest)

/-- Wire decoding of a `ToolSetSpec`; fails on malformed or trailing
bytes. -/
def unmarshalToolSetSpec (l : List Nat) : Except String ToolSetSpec :=
  match parseToolIds l with
  | none => .error "cannot unmarshal tool ids"
  | some (ids, r1) =>
    match parseName r1 with
    | none => .error "cannot unmarshal name"
    | some (nm, r2) =>
      match parseEnabled r2 with
      | none => .error "cannot unmarshal enabled"
      | some (e, r3) =>
        if r3 = [] then .ok ⟨ids, nm, e⟩ else .error "trailing bytes"

/-! ### Lemmas: whitespace trimming -/

theorem dropWhile_dropWhile {α : Type} (p : α → Bool) (l : List α) :
    (l.dropWhile p).dropWhile p = l.dropWhile p := by
  induction l with
  | nil => rfl
  | cons c t ih =>
    by_cases h : p c = true
    · rw [List.dropWhile_cons, if_pos h, ih]
    · rw [List.dropWhile_cons, if_neg h, List.dropWhile_cons, if_neg h]

theorem trimRightSpace_idem (l : List Char) :
    trimRightSpace (trimRightSpace l) = trimRightSpace l := by
  induction l with
  | nil => rfl
  | cons c t ih =>
    by_cases h : trimRightSpace t = [] ∧ goSpace c = true
    · simp only [trimRightSpace, if_pos h]
    · simp only [trimRightSpace, if_neg h, ih]

theorem dropWhile_length_le {α : Type} (p : α → Bool) (l : List α) :
    (l.dropWhile p).length ≤ l.length := by
  induction l with
  | nil => exact Nat.le_refl 0
  | cons c t ih =>
    rw [List.dropWhile_cons]
    by_cases h : p c = true
    · rw [if_pos h]
      exact Nat.le_succ_of_le ih
    · rw [if_neg h]

theorem dropWhile_trimRightSpace (l : List Char) (h : l.dropWhile goSpace = l) :
    (trimRightSpace l).dropWhile goSpace = trimRightSpace l := by
  cases l with
  | nil => rfl
  | cons c t =>
    have hc : ¬ goSpace c = true := by
      intro hg
      rw [List.dropWhile_cons, if_pos hg] at h
      have hlen := dropWhile_length_le goSpace t
      rw [h] at hlen
      simp at hlen
    by_cases h2 : trimRightSpace t = [] ∧ goSpace c = true
    · exact absurd h2.2 hc
    · simp only [trimRightSpace, if_neg h2]
      rw [List.dropWhile_cons, if_neg hc]

theorem trimSpace_idem (l : List Char) : trimSpace (trimSpace l) = trimSpace l := by
  unfold trimSpace
  rw [dropWhile_trimRightSpace _ (dropWhile_dropWhile _ _), trimRightSpace_idem]

theorem buildExcluded_trimmed (raw : List Char) :
    ∀ e ∈ buildExcluded raw, trimSpace e = e := by
  intro e he
  unfold buildExcluded at he
  split at he
  · cases he
  · obtain ⟨x, _, rfl⟩ := List.mem_map.mp he
    exact trimSpace_idem x

/-! ### Lemmas: Selection Filter -/

theorem shouldGenerate_iff (node : SchemaNode) (cfg : GeneratorConfig) :
    shouldGenerate node cfg = true ↔
      node.isMapEntry = false ∧
      (cfg.onlyPackage = [] ∨ node.pkg = cfg.onlyPackage) ∧
      node.shortName ∉ cfg.excludedTypes ∧ node.fullName ∉ cfg.excludedTypes := by
  unfold shouldGenerate
  split_ifs with h1 h2 h3 <;> simp_all <;> tauto

/-! ### Lemmas: Emission Engine and Package Emission State -/

theorem countShared_append (p : List Char) (a b : List Block) :
    countShared p (a ++ b) = countShared p a + countShared p b := by
  unfold countShared
  rw [List.filter_append, List.length_append]

theorem genMsgs_marked (cfg : GeneratorConfig) (pkg p : List Char) :
    ∀ msgs bs st, p ∈ st →
      countShared p (genMsgs cfg pkg msgs bs st).1 = countShared p bs ∧
      p ∈ (genMsgs cfg pkg msgs bs st).2 := by
  intro msgs
  induction msgs with
  | nil => exact fun bs st h => ⟨rfl, h⟩
  | cons n rest ih =>
    intro bs st h
    simp only [genMsgs]
    by_cases hg : shouldGenerate n cfg = true
    · rw [if_pos hg]
      by_cases hm : pkg ∈ st
      · rw [if_pos hm]
        have hr := ih (bs ++ [Block.messageWrapper n.shortName]) st h
        rw [countShared_append] at hr
        simpa [countShared] using hr
      · rw [if_neg hm]
        have hne : pkg ≠ p := fun hq => hm (hq ▸ h)
        have hr := ih (bs ++ [Block.sharedWrapper pkg, Block.messageWrapper n.shortName])
          (pkg :: st) (List.mem_cons_of_mem _ h)
        rw [countShared_append] at hr
        simpa [countShared, hne] using hr
    · rw [if_neg hg]
      exact ih bs st h

theorem genMsgs_unmarked_accepted (cfg : GeneratorConfig) (p : List Char) :
    ∀ msgs bs st, p ∉ st → (∃ n ∈ msgs, shouldGenerate n cfg = true) →
      countShared p (genMsgs cfg p msgs bs st).1 = countShared p bs + 1 ∧
      p ∈ (genMsgs cfg p msgs bs st).2 := by
  intro msgs
  induction msgs with
  | nil =>
    intro bs st _ hex
    obtain ⟨n, hn, _⟩ := hex
    cases hn
  | cons n rest ih =>
    intro bs st hst hex
    simp only [genMsgs]
    by_cases hg : shouldGenerate n cfg = true
    · rw [if_pos hg, if_neg hst]
      have hr := genMsgs_marked cfg p p rest
        (bs ++ [Block.sharedWrapper p, Block.messageWrapper n.shortName])
        (p :: st) (List.mem_cons_self p st)
      rw [countShared_append] at hr
      refine ⟨?_, hr.2⟩
      rw [hr.1]
      simp [countShared]
    · rw [if_neg hg]
      obtain ⟨n', hn', hg'⟩ := hex
      rcases List.mem_cons.mp hn' with hh | hh
      · exact absurd (hh ▸ hg') hg
      · exact ih bs st hst ⟨n', hh, hg'⟩

/-! ### Lemmas: binary codec round trip -/

theorem varintDecode_encodeF (fuel : Nat) :
    ∀ n rest, n < fuel → varintDecode (varintEncodeF fuel n ++ rest) = some (n, rest) := by
  induction fuel with
  | zero => exact fun n rest h => absurd h (Nat.not_lt_zero n)
  | succ f ih =>
    intro n rest h
    by_cases h128 : n < 128
    · simp only [varintEncodeF, if_pos h128, List.cons_append, List.nil_append]
      rw [varintDecode, if_pos h128]
    · have hdiv : n / 128 < n := Nat.div_lt_self (by omega) (by omega)
      have hrec : n / 128 < f := by omega
      simp only [varintEncodeF, if_neg h128, List.cons_append]
      rw [varintDecode, if_neg (by omega), ih (n / 128) rest hrec]
      show some (n % 128 + 128 - 128 + 128 * (n / 128), rest) = some (n, rest)
      have heq : n % 128 + 128 - 128 + 128 * (n / 128) = n := by omega
      rw [heq]

theorem varintDecode_encode (n : Nat) (rest : List Nat) :
    varintDecode (varintEncode n ++ rest) = some (n, rest) :=
  varintDecode_encodeF (n + 1) n rest (Nat.lt_succ_self n)

theorem readN_append (s r : List Nat) : readN s.length (s ++ r) = some (s, r) := by
  unfold readN
  rw [if_pos (by simp)]
  simp

theorem decLD_encLD (s r : List Nat) : decLD (encLD s ++ r) = some (s, r) := by
  unfold decLD encLD
  rw [List.append_assoc, varintDecode_encode]
  exact readN_append s r

theorem parseToolIdsF_none (fuel : Nat) (rest : List Nat) (h : rest.head? ≠ some 10)
    (hf : rest.length ≤ fuel) : parseToolIdsF fuel rest = some ([], rest) := by
  cases rest with
  | nil => cases fuel <;> rfl
  | cons b t =>
    have hb : ¬ b = 10 := fun hq => h (by rw [hq]; rfl)
    cases fuel with
    | zero => simp at hf
    | succ f => simp only [parseToolIdsF, if_neg hb]

theorem parseToolIdsF_enc :
    ∀ ids fuel (rest : List Nat), rest.head? ≠ some 10 →
      (encodeToolIds ids ++ rest).length ≤ fuel →
      parseToolIdsF fuel (encodeToolIds ids ++ rest) = some (ids, rest) := by
  intro ids
  induction ids with
  | nil =>
    intro fuel rest hh hf
    simp only [encodeToolIds, List.nil_append] at hf ⊢
    exact parseToolIdsF_none fuel rest hh hf
  | cons s ids ih =>
    intro fuel rest hh hf
    have hlist : encodeToolIds (s :: ids) ++ rest
        = 10 :: (encLD s ++ (encodeToolIds ids ++ rest)) := by
      simp [encodeToolIds, List.append_assoc]
    rw [hlist] at hf ⊢
    cases fuel with
    | zero => simp at hf
    | succ f =>
      have htail : (encodeToolIds ids ++ rest).length ≤ f := by
        simp only [List.length_cons, List.length_append] at hf ⊢
        omega
      simp [parseToolIdsF, decLD_encLD, ih f rest hh htail]

theorem headNot10 (m : ToolSetSpec) :
    ((if m.name = [] then [] else 18 :: encLD m.name)
      ++ (if m.enabled then [24, 1] else [])).head? ≠ some 10 := by
  by_cases hn : m.name = [] <;> by_cases he : m.enabled <;>
    simp [hn, he]

theorem parseName_enc (m : ToolSetSpec) :
    parseName ((if m.name = [] then [] else 18 :: encLD m.name)
        ++ (if m.enabled then [24, 1] else []))
      = some (m.name, if m.enabled then [24, 1] else []) := by
  by_cases hn : m.name = []
  · rw [if_pos hn, List.nil_append, hn]
    by_cases he : m.enabled <;> simp [he, parseName]
  · rw [if_neg hn, List.cons_append]
    simp [parseName, decLD_encLD]

theorem parseEnabled_enc (e : Bool) :
    parseEnabled (if e then [24, 1] else []) = some (e, []) := by
  cases e <;> rfl

theorem unmarshal_marshal (m : ToolSetSpec) :
    unmarshalToolSetSpec (marshalToolSetSpec m) = .ok m := by
  have hm : marshalToolSetSpec m
      = encodeToolIds m.toolIds
        ++ ((if m.name = [] then [] else 18 :: encLD m.name)
          ++ (if m.enabled then [24, 1] else [])) := by
    simp [marshalToolSetSpec, List.append_assoc]
  unfold unmarshalToolSetSpec parseToolIds
  rw [hm, parseToolIdsF_enc m.toolIds _ _ (headNot10 m) (Nat.le_refl _)]
  simp only [parseName_enc m, parseEnabled_enc m.enabled, if_true]

/-! ### Claim theorems -/

/-- C1 counterexample: the claim states that `value(construct(absent))`
returns null; at the concrete `ToolSetSpec` instantiation, constructing from
an absent message and asking for the value yields the non-null empty binary
sequence (the serialization of a freshly constructed empty message), not
null. -/
theorem construct_absent_value_not_null :
    MsgValue.value marshalToolSetSpec ToolSetSpec.default
        (MsgValue.construct ToolSetSpec.default none) = .ok (some []) ∧
    (Except.ok (some []) : Except String (Option (List Nat))) ≠ .ok none :=
  ⟨rfl, by simp⟩

/-- C1 amended: `value(construct(m))` never errors and never returns null:
for an absent message argument it returns the binary serialization of the
freshly constructed empty message (an empty, non-null binary sequence);
null is produced by `value` only for a zero-value wrapper whose embedded
container is absent. -/
theorem construct_value_serializes {M : Type} (enc : M → List Nat) (dflt : M)
    (m : Option M) :
    MsgValue.value enc dflt (MsgValue.construct dflt m)
      = .ok (some (enc (m.getD dflt))) := rfl

/-- C2: for every message value `m` (including the all-default one),
producing the storable value of `construct(m)` and scanning the resulting
binary sequence into a fresh wrapper succeeds and yields a held message
equal in content to `m`. -/
theorem scan_value_roundTrip (m : ToolSetSpec) :
    MsgValue.value marshalToolSetSpec ToolSetSpec.default
        (MsgValue.construct ToolSetSpec.default (some m))
      = .ok (some (marshalToolSetSpec m)) ∧
    ∃ w : MsgValue ToolSetSpec,
      MsgValue.scan unmarshalToolSetSpec ⟨none⟩ (Src.bytes (marshalToolSetSpec m))
        = .ok w ∧ w.unwrap = some m := by
  refine ⟨rfl, ⟨some ⟨some m⟩⟩, ?_, rfl⟩
  simp only [MsgValue.scan, unmarshal_marshal m]

/-- C3: across one run, two input files mapping to the same output package,
each with at least one accepted message, produce exactly one shared generic
wrapper block combined: the Package Emission State marks the package on the
first accepted message and is consulted before every later emission. -/
theorem shared_wrapper_once (cfg : GeneratorConfig) (f1 f2 : SchemaFile) (p : List Char)
    (h1g : f1.generate = true) (h2g : f2.generate = true)
    (h1p : f1.outPkg = p) (h2p : f2.outPkg = p)
    (h1a : ∃ n ∈ f1.messages, shouldGenerate n cfg = true)
    (_h2a : ∃ n ∈ f2.messages, shouldGenerate n cfg = true) :
    sharedCount p (runGenerator cfg [f1, f2]) = 1 := by
  subst h1p
  have r1 := genMsgs_unmarked_accepted cfg f1.outPkg f1.messages [] []
    (List.not_mem_nil _) h1a
  have hcount1 : countShared f1.outPkg (generateFile cfg f1 []).1 = 1 := by
    unfold generateFile
    simpa [countShared] using r1.1
  have hmem1 : f1.outPkg ∈ (generateFile cfg f1 []).2 := r1.2
  have hne1 : (generateFile cfg f1 []).1 ≠ [] := by
    intro hq
    rw [hq] at hcount1
    simp [countShared] at hcount1
  have r2 := genMsgs_marked cfg f2.outPkg f1.outPkg f2.messages [] (generateFile cfg f1 []).2
    hmem1
  have hcount2 : countShared f1.outPkg (generateFile cfg f2 (generateFile cfg f1 []).2).1 = 0 := by
    unfold generateFile
    simpa [countShared] using r2.1
  unfold runGenerator
  simp only [runFiles, if_pos h1g, if_pos h2g, if_neg hne1]
  by_cases h2e : (generateFile cfg f2 (generateFile cfg f1 []).2).1 = []
  · rw [if_pos h2e]
    simp [sharedCount, countShared_append, hcount1]
  · rw [if_neg h2e]
    simp [sharedCount, countShared_append, hcount1, hcount2]

/-- C3 witness: a concrete two-file run over the same output package, each
file holding one accepted message, emits the shared wrapper block exactly
once. -/
theorem shared_wrapper_once_witness :
    sharedCount ['p'] (runGenerator ⟨[], []⟩
      [⟨true, ['p'], [⟨['A'], ['A'], false, []⟩]⟩,
       ⟨true, ['p'], [⟨['B'], ['B'], false, []⟩]⟩]) = 1 :=
  shared_wrapper_once ⟨[], []⟩ _ _ ['p'] rfl rfl rfl rfl
    (by decide) (by decide)

/-- C4: the Selection Filter returns false for every node flagged as a
synthetic map-entry pseudo-message, whatever the exclusion set and the
package restriction are. -/
theorem mapEntry_never_selected (node : SchemaNode) (cfg : GeneratorConfig)
    (h : node.isMapEntry = true) : shouldGenerate node cfg = false := by
  unfold shouldGenerate
  rw [if_pos h]

/-- C4 witness: a concrete map-entry node is rejected even under an empty
configuration. -/
theorem mapEntry_never_selected_witness :
    (SchemaNode.mk ['E'] ['p', '.', 'E'] true ['p']).isMapEntry = true ∧
    shouldGenerate ⟨['E'], ['p', '.', 'E'], true, ['p']⟩ ⟨[], []⟩ = false :=
  ⟨rfl, mapEntry_never_selected ⟨['E'], ['p', '.', 'E'], true, ['p']⟩ ⟨[], []⟩ rfl⟩

/-- C5: the generated scan operation fails with the unsupported-source-type
error exactly on sources that are neither a binary sequence, a text
sequence, nor null; on sources of those three kinds that error is never
raised. -/
theorem scan_unsupported_source_iff {M : Type} (dec : List Nat → Except String M)
    (w : MsgValue M) (src : Src) :
    MsgValue.scan dec w src = .error .unsupportedType ↔ src.supported = false := by
  cases src with
  | bytes b =>
    simp only [MsgValue.scan, Src.supported]
    cases hd : dec b <;> simp
  | str b =>
    simp only [MsgValue.scan, Src.supported]
    cases hd : dec b <;> simp
  | null => simp [MsgValue.scan, Src.supported]
  | int64 n => simp [MsgValue.scan, Src.supported]
  | float64 => simp [MsgValue.scan, Src.supported]
  | boolean b => simp [MsgValue.scan, Src.supported]
  | timeVal => simp [MsgValue.scan, Src.supported]

/-- C6: scanning a text sequence and scanning the binary sequence of the
same bytes yield equal results (error outcome and held message alike): the
text path is an identity byte reinterpretation. -/
theorem scan_string_eq_scan_bytes {M : Type} (dec : List Nat → Except String M)
    (w : MsgValue M) (b : List Nat) :
    MsgValue.scan dec w (Src.str b) = MsgValue.scan dec w (Src.bytes b) := rfl

/-- C7: scanning a null source succeeds with no error for every wrapper
(the wrapper is left unchanged). -/
theorem scan_null_ok {M : Type} (dec : List Nat → Except String M) (w : MsgValue M) :
    MsgValue.scan dec w Src.null = .ok w := rfl

/-- C8: unwrapping a wrapper constructed from a present message yields that
very message: the construction stores the given instance unchanged, so the
model returns the identical value for an arbitrary message type. -/
theorem unwrap_construct {M : Type} (dflt m : M) :
    MsgValue.unwrap (MsgValue.construct dflt (some m)) = some m := rfl

/-- C9: every entry of the comma-separated exclude option is placed in the
exclusion set already trimmed (trimming it again is the identity, i.e.
trimming happened exactly once, at configuration-build time), and the
Selection Filter's membership test compares the node's short and fully
qualified names verbatim — exact, case-sensitive list membership with no
trimming at match time. -/
theorem exclude_trim_once_match_exact :
    (∀ raw : List Char, ∀ e ∈ buildExcluded raw, trimSpace e = e) ∧
    (∀ (cfg : GeneratorConfig) (node : SchemaNode),
      shouldGenerate node cfg = true ↔
        node.isMapEntry = false ∧
        (cfg.onlyPackage = [] ∨ node.pkg = cfg.onlyPackage) ∧
        node.shortName ∉ cfg.excludedTypes ∧ node.fullName ∉ cfg.excludedTypes) :=
  ⟨buildExcluded_trimmed, fun cfg node => shouldGenerate_iff node cfg⟩

/-- C10: a zero-value wrapper, whose embedded generic container was never
initialized, unwraps to absent rather than failing, and its value operation
returns null with no error. -/
theorem zero_wrapper_unwrap_value {M : Type} (enc : M → List Nat) (dflt : M) :
    MsgValue.unwrap (⟨none⟩ : MsgValue M) = none ∧
    MsgValue.value enc dflt ⟨none⟩ = .ok none :=
  ⟨rfl, rfl⟩

end DbTypes
